import Mathlib

/-!
Verification of the credit-ledger / shift-reconciliation core of the
Eliana-Pudahuel point-of-sale application.

The repository sources provide the data model (`src/src/types.ts`) and the
PDF report generator (`generateClientReport`, `generateSummaryReport` in
`src/unnamed/part_000`).  The ledger operations themselves (CreditLedger,
StockLedger, ShiftSession) are declared by the data model and described in
detail by the specification; each such operation is embedded here from the
specification text and is marked `Modelled from the spec:` in its doc
comment.  The report generator is embedded directly from the TypeScript
source.  All monetary quantities are integers (the spec requires
fixed-precision integer money with no floating-point drift).
-/

/- ------------------------------------------------------------------ -/
/- Data model, from src/src/types.ts                                  -/
/- ------------------------------------------------------------------ -/

/-- PaymentMethod from types.ts: "cash" | "card" | "transfer" | "fiado" | "staff". -/
inductive PaymentMethod
  | cash
  | card
  | transfer
  | fiado
  | staff
deriving DecidableEq, Repr

/-- PaymentSchedule from types.ts: "immediate" | "biweekly" | "monthly". -/
inductive PaymentSchedule
  | immediate
  | biweekly
  | monthly
deriving DecidableEq, Repr

/-- Movement type of a ClientMovement: "abono" | "pago-total" | "fiado".
`pagoTotal` embeds the string tag "pago-total". -/
inductive MovementType
  | abono
  | pagoTotal
  | fiado
deriving DecidableEq, Repr

/-- ClientMovement from types.ts (lines 33-41). -/
structure ClientMovement where
  id : String
  client_id : String
  amount : Int
  type : MovementType
  description : String
  created_at : String
  balance_after : Int
deriving DecidableEq, Repr

/-- Client from types.ts.  `history` is the ordered movement list; the
optional field of the interface is embedded as an always-present list
(absent = empty). -/
structure Client where
  id : String
  name : String
  authorized : Bool
  balance : Int
  limit : Int
  payment_schedule : Option PaymentSchedule
  history : List ClientMovement
deriving DecidableEq, Repr

/- ------------------------------------------------------------------ -/
/- CreditLedger, modelled from the spec (§4.1)                        -/
/- ------------------------------------------------------------------ -/

/-- Error taxonomy of the ledger (spec §7). -/
inductive LedgerError
  | InvalidMovement
  | CreditDenied
deriving DecidableEq, Repr

/-- Signed delta of a movement type applied with a given amount:
fiado adds the amount, abono and pago-total subtract it (spec §4.1). -/
def signedDeltaOf (t : MovementType) (amount : Int) : Int :=
  match t with
  | .fiado => amount
  | .abono => -amount
  | .pagoTotal => -amount

/-- Signed delta of a recorded movement. -/
def signedDelta (m : ClientMovement) : Int :=
  signedDeltaOf m.type m.amount

/-- Amount actually recorded on a movement: for pago-total it is whatever
value zeroes the balance, i.e. the current balance; otherwise the supplied
amount (spec §4.1). -/
def recordedAmount (c : Client) (t : MovementType) (amount : Int) : Int :=
  if t = .pagoTotal then c.balance else amount

/-- Balance that posting the movement would produce. -/
def movementNewBalance (c : Client) (t : MovementType) (amount : Int) : Int :=
  c.balance + signedDeltaOf t (recordedAmount c t amount)

/-- Modelled from the spec: `CreditLedger.postMovement` is not among the
repository sources (only its data types are); this follows §4.1.  The signed
delta is computed from the type (fiado: +amount; abono/pago-total: −amount,
where pago-total records as amount whatever value zeroes the balance).  The
call fails with `InvalidMovement` if the supplied amount is ≤ 0, or if an
abono or pago-total would drive the balance negative.  On success a movement
whose `balance_after` is the new balance is appended to the history and the
cached balance is updated to `balance_after`. -/
def postMovement (c : Client) (t : MovementType) (amount : Int)
    (description mid ts : String) : Except LedgerError Client :=
  if amount ≤ 0 then .error .InvalidMovement
  else if t ≠ .fiado ∧ movementNewBalance c t amount < 0 then
    .error .InvalidMovement
  else
    .ok { c with
            balance := movementNewBalance c t amount,
            history := c.history ++
              [{ id := mid, client_id := c.id,
                 amount := recordedAmount c t amount, type := t,
                 description := description, created_at := ts,
                 balance_after := movementNewBalance c t amount }] }

/-- One requested ledger operation (the arguments of one `postMovement` call). -/
structure MovementRequest where
  type : MovementType
  amount : Int
  description : String
  mid : String
  ts : String
deriving DecidableEq, Repr

/-- State-level view of one `postMovement` call: on failure the client is
returned unchanged (spec §7: a failed operation leaves all resources in
their pre-call state). -/
def applyRequest (c : Client) (r : MovementRequest) : Client :=
  match postMovement c r.type r.amount r.description r.mid r.ts with
  | .ok c2 => c2
  | .error _ => c

/-- A sequence of ledger operations applied in order. -/
def runRequests (c : Client) (rs : List MovementRequest) : Client :=
  rs.foldl applyRequest c

/-- The chain condition of the movement history: each entry records as
`balance_after` the previous `balance_after` plus its own signed delta,
the first entry chaining from `prev`. -/
def chainFrom (prev : Int) : List ClientMovement → Prop
  | [] => True
  | m :: rest => m.balance_after = prev + signedDelta m ∧ chainFrom m.balance_after rest

/-- `balance_after` of the last movement of the list, or `prev` when the
list is empty. -/
def lastBal (prev : Int) : List ClientMovement → Int
  | [] => prev
  | m :: rest => lastBal m.balance_after rest

/-- The ledger invariant of a client (spec §3, Client): the history chains
from an implicit zero balance and the cached balance equals the
`balance_after` of the last movement (zero when the history is empty). -/
def ledgerInvariant (c : Client) : Prop :=
  chainFrom 0 c.history ∧ c.balance = lastBal 0 c.history

theorem chainFrom_append_one (l : List ClientMovement) (m : ClientMovement) :
    ∀ p, chainFrom p (l ++ [m]) ↔
      chainFrom p l ∧ m.balance_after = lastBal p l + signedDelta m := by
  induction l with
  | nil => intro p; simp [chainFrom, lastBal]
  | cons a l ih =>
      intro p
      simp only [List.cons_append, List.append_eq, chainFrom, lastBal, ih, and_assoc]

theorem lastBal_append_one (l : List ClientMovement) (m : ClientMovement) :
    ∀ p, lastBal p (l ++ [m]) = m.balance_after := by
  induction l with
  | nil => intro p; simp [lastBal]
  | cons a l ih => intro p; simp only [List.cons_append, List.append_eq, lastBal, ih]

theorem lastBal_eq_sum (l : List ClientMovement) :
    ∀ p, chainFrom p l → lastBal p l = p + (l.map signedDelta).sum := by
  induction l with
  | nil => intro p _; simp [lastBal]
  | cons m l ih =>
      intro p h
      obtain ⟨h1, h2⟩ := h
      simp only [lastBal, List.map_cons, List.sum_cons]
      rw [ih m.balance_after h2, h1]
      ring

theorem lastBal_getLast (l : List ClientMovement) (m : ClientMovement) :
    ∀ p, l.getLast? = some m → lastBal p l = m.balance_after := by
  induction l with
  | nil => intro p h; simp at h
  | cons a l ih =>
      intro p h
      cases l with
      | nil =>
          simp only [List.getLast?_singleton, Option.some.injEq] at h
          simp [lastBal, h]
      | cons b l2 =>
          rw [List.getLast?_cons_cons] at h
          simpa only [lastBal] using ih a.balance_after h

theorem postMovement_ok_invariant (c : Client) (t : MovementType) (a : Int)
    (d i s : String) (c2 : Client) (hinv : ledgerInvariant c)
    (h : postMovement c t a d i s = .ok c2) : ledgerInvariant c2 := by
  unfold postMovement at h
  split at h
  · exact absurd h (by simp)
  split at h
  · exact absurd h (by simp)
  obtain ⟨hchain, hbal⟩ := hinv
  cases h
  constructor
  · rw [chainFrom_append_one]
    refine ⟨hchain, ?_⟩
    simp only [signedDelta, movementNewBalance]
    rw [← hbal]
  · rw [lastBal_append_one]

theorem applyRequest_invariant (c : Client) (r : MovementRequest)
    (h : ledgerInvariant c) : ledgerInvariant (applyRequest c r) := by
  unfold applyRequest
  rcases h2 : postMovement c r.type r.amount r.description r.mid r.ts with e | c2
  · exact h
  · exact postMovement_ok_invariant c r.type r.amount r.description r.mid r.ts c2 h h2

theorem runRequests_invariant (rs : List MovementRequest) :
    ∀ c, ledgerInvariant c → ledgerInvariant (runRequests c rs) := by
  induction rs with
  | nil => intro c h; exact h
  | cons r rs ih =>
      intro c h
      exact ih (applyRequest c r) (applyRequest_invariant c r h)

/-- C1: for every client satisfying the ledger invariant and after every
sequence of CreditLedger operations, the history chains (each movement
records as `balance_after` the previous `balance_after` plus its signed
delta, the first from an implicit zero), the cached balance equals the
`balance_after` of the last movement (zero on empty history), and the
balance equals the sum of signed deltas over the history in insertion
order. -/
theorem creditLedger_balance_invariant (c : Client) (rs : List MovementRequest)
    (h : ledgerInvariant c) :
    chainFrom 0 (runRequests c rs).history ∧
    (runRequests c rs).balance = lastBal 0 (runRequests c rs).history ∧
    (∀ m, (runRequests c rs).history.getLast? = some m →
      (runRequests c rs).balance = m.balance_after) ∧
    (runRequests c rs).balance = ((runRequests c rs).history.map signedDelta).sum := by
  obtain ⟨hchain, hbal⟩ := runRequests_invariant rs c h
  refine ⟨hchain, hbal, ?_, ?_⟩
  · intro m hm
    rw [hbal, lastBal_getLast _ m 0 hm]
  · rw [hbal, lastBal_eq_sum _ 0 hchain]
    ring

/-- A fresh client: zero balance, empty history. -/
def freshClient : Client :=
  { id := "c1", name := "Elena", authorized := true, balance := 0,
    limit := 50000, payment_schedule := none, history := [] }

/-- Two concrete requests used by witnesses. -/
def reqFiado : MovementRequest :=
  { type := .fiado, amount := 20000, description := "compra", mid := "m1", ts := "t1" }

def reqAbono : MovementRequest :=
  { type := .abono, amount := 5000, description := "abono", mid := "m2", ts := "t2" }

theorem creditLedger_balance_invariant_witness :
    chainFrom 0 (runRequests freshClient [reqFiado, reqAbono]).history ∧
    (runRequests freshClient [reqFiado, reqAbono]).balance =
      lastBal 0 (runRequests freshClient [reqFiado, reqAbono]).history ∧
    (∀ m, (runRequests freshClient [reqFiado, reqAbono]).history.getLast? = some m →
      (runRequests freshClient [reqFiado, reqAbono]).balance = m.balance_after) ∧
    (runRequests freshClient [reqFiado, reqAbono]).balance =
      ((runRequests freshClient [reqFiado, reqAbono]).history.map signedDelta).sum :=
  creditLedger_balance_invariant freshClient [reqFiado, reqAbono] ⟨trivial, rfl⟩

theorem movementNewBalance_pagoTotal (c : Client) (a : Int) :
    movementNewBalance c .pagoTotal a = 0 := by
  show c.balance + -(recordedAmount c .pagoTotal a) = 0
  rw [recordedAmount, if_pos rfl]
  ring

/-- C2: for every client state and every positive supplied amount,
`postMovement` with type pago-total succeeds, the resulting balance is
exactly 0, and the recorded amount of the appended movement is the previous
balance — the value that zeroes it — regardless of the amount the caller
supplied. -/
theorem pagoTotal_forces_zero_balance (c : Client) (amount : Int)
    (d i s : String) (h : 0 < amount) :
    postMovement c .pagoTotal amount d i s =
      .ok { c with
              balance := 0,
              history := c.history ++
                [{ id := i, client_id := c.id, amount := c.balance,
                   type := .pagoTotal, description := d, created_at := s,
                   balance_after := 0 }] } := by
  unfold postMovement
  rw [if_neg (by omega)]
  rw [movementNewBalance_pagoTotal]
  rw [if_neg (by simp)]
  simp [recordedAmount]

theorem pagoTotal_forces_zero_balance_witness :
    postMovement { freshClient with balance := 12345 } .pagoTotal 99 "pt" "m9" "t9" =
      .ok { { freshClient with balance := 12345 } with
              balance := 0,
              history := { freshClient with balance := 12345 }.history ++
                [{ id := "m9", client_id := { freshClient with balance := 12345 }.id,
                   amount := { freshClient with balance := 12345 }.balance,
                   type := .pagoTotal, description := "pt", created_at := "t9",
                   balance_after := 0 }] } :=
  pagoTotal_forces_zero_balance { freshClient with balance := 12345 } 99 "pt" "m9" "t9"
    (by decide)

/-- C3: `postMovement` fails with `InvalidMovement` whenever the supplied
amount is ≤ 0, and whenever an abono or pago-total would drive the balance
negative (for an abono this is exactly amount strictly greater than the
current balance); on such a failure the client — balance and history — is
exactly as before the call. -/
theorem postMovement_invalid_rejected (c : Client) (t : MovementType)
    (amount : Int) (d i s : String)
    (h : amount ≤ 0 ∨
      ((t = .abono ∨ t = .pagoTotal) ∧ movementNewBalance c t amount < 0)) :
    postMovement c t amount d i s = .error .InvalidMovement ∧
    applyRequest c { type := t, amount := amount, description := d, mid := i, ts := s } = c := by
  have herr : postMovement c t amount d i s = .error .InvalidMovement := by
    unfold postMovement
    rcases h with h | ⟨ht, hneg⟩
    · rw [if_pos h]
    · by_cases ha : amount ≤ 0
      · rw [if_pos ha]
      · rw [if_neg ha, if_pos ⟨by rcases ht with ht | ht <;> simp [ht], hneg⟩]
  refine ⟨herr, ?_⟩
  unfold applyRequest
  rw [herr]

/-- For an abono the new balance is the old balance minus the amount, so
overpaying (amount greater than balance) is exactly the drive-negative
condition of the rejection rule. -/
theorem movementNewBalance_abono (c : Client) (a : Int) :
    movementNewBalance c .abono a = c.balance - a := by
  show c.balance + -(recordedAmount c .abono a) = c.balance - a
  rw [recordedAmount, if_neg (by simp)]
  ring

theorem postMovement_invalid_rejected_witness :
    postMovement { freshClient with balance := 100 } .abono 250 "ab" "m3" "t3" =
      .error .InvalidMovement ∧
    applyRequest { freshClient with balance := 100 }
      { type := .abono, amount := 250, description := "ab", mid := "m3", ts := "t3" } =
      { freshClient with balance := 100 } :=
  postMovement_invalid_rejected { freshClient with balance := 100 } .abono 250 "ab" "m3" "t3"
    (Or.inr ⟨Or.inl rfl, by decide⟩)

/- ------------------------------------------------------------------ -/
/- ShiftSession, modelled from the spec (§4.3)                        -/
/- ------------------------------------------------------------------ -/

/-- ExpenseType from types.ts: "sueldo" | "flete" | "proveedor" | "otro" | "operacion". -/
inductive ExpenseType
  | sueldo
  | flete
  | proveedor
  | otro
  | operacion
deriving DecidableEq, Repr

/-- ShiftExpense from types.ts (the optional `paid_from_cash` flag is
embedded as a Bool, absent = false). -/
structure ShiftExpense where
  id : String
  shift_id : String
  expense_type : ExpenseType
  amount : Int
  description : Option String
  created_at : String
  paid_from_cash : Bool
deriving DecidableEq, Repr

/-- The `payments_breakdown` map of a Shift: one summed amount per payment
method. -/
structure PaymentsBreakdown where
  cash : Int
  card : Int
  transfer : Int
  fiado : Int
  staff : Int
deriving DecidableEq, Repr

/-- Status of a Shift: "open" | "closed".  `opened` embeds the string tag
"open" (a reserved word here). -/
inductive ShiftStatus
  | opened
  | closed
deriving DecidableEq, Repr

/-- Shift from types.ts (lines 68-84) as the state of a ShiftSession.
`endTime` embeds the `end` field (a reserved word here); the fields
populated only at close are Options, `none` while the shift is open. -/
structure ShiftState where
  id : String
  seller : String
  status : ShiftStatus
  start : String
  endTime : Option String
  initial_cash : Int
  total_sales : Int
  tickets : Int
  payments_breakdown : PaymentsBreakdown
  expenses : List ShiftExpense
  cash_expected : Option Int
  cash_counted : Option Int
  difference : Option Int
  total_expenses : Option Int
deriving DecidableEq, Repr

/-- Shift state-machine errors (spec §7). -/
inductive ShiftError
  | AlreadyClosed
  | InvalidCount
  | ShiftClosed
deriving DecidableEq, Repr

/-- Sum of the amounts of the expenses flagged paid_from_cash. -/
def cashPaidExpenses (es : List ShiftExpense) : Int :=
  ((es.filter (fun e => e.paid_from_cash)).map (fun e => e.amount)).sum

/-- Sum of all recorded expense amounts. -/
def totalExpenseAmount (es : List ShiftExpense) : Int :=
  (es.map (fun e => e.amount)).sum

/-- Modelled from the spec: `ShiftSession.close` is not among the repository
sources (only the Shift data type is); this follows §4.3.  It fails with
`AlreadyClosed` on a closed shift and with `InvalidCount` when cash_counted
is negative; otherwise it computes total_expenses as the sum of all expense
amounts, cash_expected as initial_cash plus the cash entry of
payments_breakdown minus the sum of expense amounts flagged paid_from_cash,
difference as cash_counted minus cash_expected, sets the end timestamp and
marks the shift closed. -/
def closeShift (sh : ShiftState) (cash_counted : Int) (ts : String) :
    Except ShiftError ShiftState :=
  if sh.status = .closed then .error .AlreadyClosed
  else if cash_counted < 0 then .error .InvalidCount
  else
    let cash_expected :=
      sh.initial_cash + sh.payments_breakdown.cash - cashPaidExpenses sh.expenses
    .ok { sh with
            status := .closed,
            endTime := some ts,
            cash_expected := some cash_expected,
            cash_counted := some cash_counted,
            difference := some (cash_counted - cash_expected),
            total_expenses := some (totalExpenseAmount sh.expenses) }

/-- State-level view of one `close` call: on failure the shift is returned
unchanged (spec §7). -/
def applyClose (sh : ShiftState) (cash_counted : Int) (ts : String) : ShiftState :=
  match closeShift sh cash_counted ts with
  | .ok sh2 => sh2
  | .error _ => sh

/-- C4: closing an open shift with a non-negative count succeeds and
computes cash_expected as initial_cash plus the cash entry of
payments_breakdown minus the sum of expense amounts flagged paid_from_cash,
and difference as cash_counted minus cash_expected; in particular, with no
cash sales and no cash-paid expenses, cash_expected equals initial_cash. -/
theorem closeShift_reconciliation (sh : ShiftState) (cc : Int) (ts : String)
    (hopen : sh.status = .opened) (hcc : 0 ≤ cc) :
    ∃ sh2, closeShift sh cc ts = .ok sh2 ∧
      sh2.cash_expected =
        some (sh.initial_cash + sh.payments_breakdown.cash - cashPaidExpenses sh.expenses) ∧
      sh2.difference =
        some (cc - (sh.initial_cash + sh.payments_breakdown.cash - cashPaidExpenses sh.expenses)) ∧
      sh2.cash_counted = some cc ∧
      sh2.total_expenses = some (totalExpenseAmount sh.expenses) ∧
      sh2.status = .closed ∧
      (sh.payments_breakdown.cash = 0 → cashPaidExpenses sh.expenses = 0 →
        sh2.cash_expected = some sh.initial_cash ∧
        sh2.difference = some (cc - sh.initial_cash)) := by
  have hne : ¬ sh.status = .closed := by rw [hopen]; simp
  refine ⟨{ sh with
              status := .closed,
              endTime := some ts,
              cash_expected := some (sh.initial_cash + sh.payments_breakdown.cash -
                cashPaidExpenses sh.expenses),
              cash_counted := some cc,
              difference := some (cc - (sh.initial_cash + sh.payments_breakdown.cash -
                cashPaidExpenses sh.expenses)),
              total_expenses := some (totalExpenseAmount sh.expenses) },
          ?_, rfl, rfl, rfl, rfl, rfl, ?_⟩
  · unfold closeShift
    rw [if_neg hne, if_neg (by omega)]
  · intro h0 he
    rw [h0, he]
    constructor
    · show some (sh.initial_cash + 0 - 0) = some sh.initial_cash
      norm_num
    · show some (cc - (sh.initial_cash + 0 - 0)) = some (cc - sh.initial_cash)
      norm_num

/-- The worked example of spec §8: initial_cash 10000, one cash sale of
5000, one card sale of 3000, one cash-paid expense of 2000. -/
def exampleShift : ShiftState :=
  { id := "s1", seller := "ana", status := .opened, start := "t0",
    endTime := none, initial_cash := 10000, total_sales := 8000, tickets := 2,
    payments_breakdown := { cash := 5000, card := 3000, transfer := 0, fiado := 0, staff := 0 },
    expenses := [{ id := "e1", shift_id := "s1", expense_type := .proveedor,
                   amount := 2000, description := none, created_at := "t1",
                   paid_from_cash := true }],
    cash_expected := none, cash_counted := none, difference := none,
    total_expenses := none }

theorem closeShift_reconciliation_witness :
    ∃ sh2, closeShift exampleShift 13000 "t2" = .ok sh2 ∧
      sh2.cash_expected =
        some (exampleShift.initial_cash + exampleShift.payments_breakdown.cash -
          cashPaidExpenses exampleShift.expenses) ∧
      sh2.difference =
        some (13000 - (exampleShift.initial_cash + exampleShift.payments_breakdown.cash -
          cashPaidExpenses exampleShift.expenses)) ∧
      sh2.cash_counted = some 13000 ∧
      sh2.total_expenses = some (totalExpenseAmount exampleShift.expenses) ∧
      sh2.status = .closed ∧
      (exampleShift.payments_breakdown.cash = 0 → cashPaidExpenses exampleShift.expenses = 0 →
        sh2.cash_expected = some exampleShift.initial_cash ∧
        sh2.difference = some (13000 - exampleShift.initial_cash)) :=
  closeShift_reconciliation exampleShift 13000 "t2" rfl (by decide)

/-- C6: `close` on an already-closed shift fails with `AlreadyClosed` and
leaves the whole shift state — every already-computed reconciliation field
included — unchanged; `close` of an open shift with a negative cash_counted
fails with `InvalidCount` and likewise changes nothing. -/
theorem closeShift_alreadyClosed_invalidCount (sh : ShiftState) (cc : Int) (ts : String) :
    (sh.status = .closed →
      closeShift sh cc ts = .error .AlreadyClosed ∧ applyClose sh cc ts = sh) ∧
    (sh.status = .opened → cc < 0 →
      closeShift sh cc ts = .error .InvalidCount ∧ applyClose sh cc ts = sh) := by
  constructor
  · intro hclosed
    have herr : closeShift sh cc ts = .error .AlreadyClosed := by
      unfold closeShift
      rw [if_pos hclosed]
    exact ⟨herr, by unfold applyClose; rw [herr]⟩
  · intro hopen hneg
    have hne : ¬ sh.status = .closed := by rw [hopen]; simp
    have herr : closeShift sh cc ts = .error .InvalidCount := by
      unfold closeShift
      rw [if_neg hne, if_pos hneg]
    exact ⟨herr, by unfold applyClose; rw [herr]⟩

/-- The example shift after a successful close, used as a concrete
already-closed state. -/
def exampleClosedShift : ShiftState :=
  applyClose exampleShift 13000 "t2"

theorem closeShift_alreadyClosed_invalidCount_witness :
    (closeShift exampleClosedShift 13000 "t3" = .error .AlreadyClosed ∧
      applyClose exampleClosedShift 13000 "t3" = exampleClosedShift) ∧
    (closeShift exampleShift (-1) "t3" = .error .InvalidCount ∧
      applyClose exampleShift (-1) "t3" = exampleShift) :=
  ⟨(closeShift_alreadyClosed_invalidCount exampleClosedShift 13000 "t3").1 (by decide),
   (closeShift_alreadyClosed_invalidCount exampleShift (-1) "t3").2 rfl (by decide)⟩

/- ------------------------------------------------------------------ -/
/- StockLedger, modelled from the spec (§4.2)                         -/
/- ------------------------------------------------------------------ -/

/-- CartLine from types.ts: a productId and a quantity. -/
structure CartLine where
  productId : String
  quantity : Int
deriving DecidableEq, Repr

/-- Stock errors (spec §7). -/
inductive StockError
  | InsufficientStock
deriving DecidableEq, Repr

/-- The current quantity-on-hand of every product, indexed by product id. -/
def StockMap : Type := String → Int

/-- Decrement the stock line by line in order, failing as soon as a line
would make the running stock of its product negative. -/
def applySaleLines : StockMap → List CartLine → Option StockMap
  | stock, [] => some stock
  | stock, l :: rest =>
    let newQty := stock l.productId - l.quantity
    if newQty < 0 then none
    else applySaleLines (fun p => if p = l.productId then newQty else stock p) rest

/-- Modelled from the spec: `StockLedger.reserveAndApply` in the sale
direction is not among the repository sources (only the data types are);
this follows §4.2.  Each cart line decrements the stock of its product by
the line quantity; if any line would make the (running) stock negative the
whole operation fails with `InsufficientStock` and no stock is applied. -/
def reserveAndApply (stock : StockMap) (lines : List CartLine) :
    Except StockError StockMap :=
  match applySaleLines stock lines with
  | some stock2 => .ok stock2
  | none => .error .InsufficientStock

/-- State-level view of one sale application: on failure the stock map is
unchanged (all-or-nothing, spec §4.2). -/
def applyStock (stock : StockMap) (lines : List CartLine) : StockMap :=
  match reserveAndApply stock lines with
  | .ok stock2 => stock2
  | .error _ => stock

/-- Total quantity requested for product `p` across the cart lines. -/
def lineTotal (lines : List CartLine) (p : String) : Int :=
  ((lines.filter (fun l => l.productId = p)).map (fun l => l.quantity)).sum

theorem lineTotal_nil (p : String) : lineTotal [] p = 0 := rfl

theorem lineTotal_cons (l : CartLine) (rest : List CartLine) (p : String) :
    lineTotal (l :: rest) p =
      (if l.productId = p then l.quantity else 0) + lineTotal rest p := by
  unfold lineTotal
  by_cases h : l.productId = p
  · simp [List.filter_cons, h]
  · simp [List.filter_cons, h]

theorem lineTotal_not_mem (rest : List CartLine) (p : String)
    (h : ∀ l ∈ rest, l.productId ≠ p) : lineTotal rest p = 0 := by
  unfold lineTotal
  rw [List.filter_eq_nil_iff.mpr (by intro l hl; simpa using h l hl)]
  rfl

theorem applySaleLines_spec (lines : List CartLine) :
    ∀ stock : StockMap,
      applySaleLines stock lines = none ∨
      (∃ stock2, applySaleLines stock lines = some stock2 ∧
        (∀ p, stock2 p = stock p - lineTotal lines p) ∧
        (∀ l ∈ lines, 0 ≤ stock2 l.productId)) := by
  induction lines with
  | nil =>
      intro stock
      refine Or.inr ⟨stock, rfl, ?_, ?_⟩
      · intro p; rw [lineTotal_nil]; ring
      · intro l hl; simp at hl
  | cons l rest ih =>
      intro stock
      by_cases hq : stock l.productId - l.quantity < 0
      · left
        unfold applySaleLines
        rw [if_pos hq]
      · have hstep : applySaleLines stock (l :: rest) =
            applySaleLines
              (fun p => if p = l.productId then stock l.productId - l.quantity else stock p)
              rest := by
          show (if stock l.productId - l.quantity < 0 then none
                else applySaleLines
                  (fun p => if p = l.productId then stock l.productId - l.quantity else stock p)
                  rest) = _
          rw [if_neg hq]
        rcases ih (fun p => if p = l.productId then stock l.productId - l.quantity else stock p)
          with hnone | ⟨stock2, hsome, hval, hmem⟩
        · left; rw [hstep, hnone]
        · right
          refine ⟨stock2, by rw [hstep, hsome], ?_, ?_⟩
          · intro p
            rw [hval p, lineTotal_cons]
            by_cases hp : p = l.productId
            · rw [hp, if_pos rfl, if_pos rfl]; ring
            · rw [if_neg hp, if_neg (fun hc => hp hc.symm)]; ring
          · intro l2 hl2
            rcases List.mem_cons.mp hl2 with heq | hmem2
            · subst heq
              by_cases hhit : ∃ l3 ∈ rest, l3.productId = l2.productId
              · obtain ⟨l3, hl3, hpid⟩ := hhit
                have hle := hmem l3 hl3
                rw [hpid] at hle
                exact hle
              · push_neg at hhit
                have h0 : lineTotal rest l2.productId = 0 := lineTotal_not_mem rest _ hhit
                have hv := hval l2.productId
                rw [h0, if_pos rfl] at hv
                rw [hv]
                omega
            · exact hmem l2 hmem2

theorem lineTotal_nonneg (lines : List CartLine) (p : String)
    (hq : ∀ l ∈ lines, 0 ≤ l.quantity) : 0 ≤ lineTotal lines p := by
  induction lines with
  | nil => rw [lineTotal_nil]
  | cons l rest ih =>
      rw [lineTotal_cons]
      have h1 : 0 ≤ l.quantity := hq l (List.mem_cons_self l rest)
      have h2 : 0 ≤ lineTotal rest p :=
        ih (fun l2 hl2 => hq l2 (List.mem_cons_of_mem l hl2))
      split <;> omega

/-- When the quantities are non-negative and, for every cart line, the
total quantity requested for its product fits in its current stock, the
line-by-line decrement never goes negative and therefore succeeds. -/
theorem applySaleLines_sufficient (lines : List CartLine) :
    ∀ stock : StockMap, (∀ l ∈ lines, 0 ≤ l.quantity) →
      (∀ l ∈ lines, lineTotal lines l.productId ≤ stock l.productId) →
      ∃ stock2, applySaleLines stock lines = some stock2 := by
  induction lines with
  | nil => intro stock _ _; exact ⟨stock, rfl⟩
  | cons l rest ih =>
      intro stock hq hsuff
      have hqrest : ∀ l2 ∈ rest, 0 ≤ l2.quantity :=
        fun l2 h => hq l2 (List.mem_cons_of_mem l h)
      have hrestnn : 0 ≤ lineTotal rest l.productId :=
        lineTotal_nonneg rest _ hqrest
      have hhead : lineTotal (l :: rest) l.productId ≤ stock l.productId :=
        hsuff l (List.mem_cons_self l rest)
      rw [lineTotal_cons, if_pos rfl] at hhead
      have hnn : ¬ stock l.productId - l.quantity < 0 := by omega
      have hstep : applySaleLines stock (l :: rest) =
          applySaleLines
            (fun p => if p = l.productId then stock l.productId - l.quantity else stock p)
            rest := by
        show (if stock l.productId - l.quantity < 0 then none
              else applySaleLines
                (fun p => if p = l.productId then stock l.productId - l.quantity else stock p)
                rest) = _
        rw [if_neg hnn]
      rw [hstep]
      apply ih _ hqrest
      intro l2 hl2
      have hs2 := hsuff l2 (List.mem_cons_of_mem l hl2)
      rw [lineTotal_cons] at hs2
      show lineTotal rest l2.productId ≤
        if l2.productId = l.productId then stock l.productId - l.quantity else stock l2.productId
      by_cases hp : l2.productId = l.productId
      · rw [if_pos hp]
        rw [hp] at hs2 ⊢
        rw [if_pos rfl] at hs2
        omega
      · rw [if_neg hp]
        rw [if_neg (fun hc => hp hc.symm)] at hs2
        omega

/-- C5: `reserveAndApply` in the sale direction is all-or-nothing.  For a
cart with non-negative quantities (SaleProcessor validates quantities > 0,
spec §4.4): when every cart line can be covered — the total quantity
requested for its product fits the current stock — the call succeeds,
every product stock is decremented by exactly the total quantity requested
for it (untouched products unchanged) and every line ends with a
non-negative stock; and when some line cannot be covered, the call fails
with `InsufficientStock` and no product stock is changed. -/
theorem reserveAndApply_all_or_nothing (stock : StockMap) (lines : List CartLine)
    (hq : ∀ l ∈ lines, 0 ≤ l.quantity) :
    ((∀ l ∈ lines, lineTotal lines l.productId ≤ stock l.productId) →
      ∃ stock2, reserveAndApply stock lines = .ok stock2 ∧
        applyStock stock lines = stock2 ∧
        (∀ p, stock2 p = stock p - lineTotal lines p) ∧
        (∀ l ∈ lines, 0 ≤ stock2 l.productId)) ∧
    ((∃ l ∈ lines, stock l.productId < lineTotal lines l.productId) →
      reserveAndApply stock lines = .error .InsufficientStock ∧
        applyStock stock lines = stock) := by
  constructor
  · intro hsuff
    obtain ⟨stock2, hsome⟩ := applySaleLines_sufficient lines stock hq hsuff
    rcases applySaleLines_spec lines stock with hnone | ⟨stock3, hsome3, hval, hmem⟩
    · rw [hnone] at hsome
      simp at hsome
    · have hok : reserveAndApply stock lines = .ok stock3 := by
        unfold reserveAndApply
        rw [hsome3]
      exact ⟨stock3, hok, by unfold applyStock; rw [hok], hval, hmem⟩
  · rintro ⟨l, hl, hlt⟩
    rcases applySaleLines_spec lines stock with hnone | ⟨stock3, hsome3, hval, hmem⟩
    · have herr : reserveAndApply stock lines = .error .InsufficientStock := by
        unfold reserveAndApply
        rw [hnone]
      exact ⟨herr, by unfold applyStock; rw [herr]⟩
    · exfalso
      have h1 := hmem l hl
      have h2 := hval l.productId
      omega

/-- Concrete stock maps and a cart used to exercise both branches: under
`sampleStock` (bread 4, milk 2) the cart fits; under `lowStock` (bread 2,
milk 2) the bread line cannot be covered. -/
def sampleStock : StockMap :=
  fun p => if p = "bread" then 4 else if p = "milk" then 2 else 0

def lowStock : StockMap :=
  fun p => if p = "bread" then 2 else if p = "milk" then 2 else 0

def sampleCart : List CartLine :=
  [{ productId := "bread", quantity := 3 }, { productId := "milk", quantity := 2 }]

theorem reserveAndApply_all_or_nothing_witness :
    (∃ stock2, reserveAndApply sampleStock sampleCart = .ok stock2 ∧
      applyStock sampleStock sampleCart = stock2 ∧
      (∀ p, stock2 p = sampleStock p - lineTotal sampleCart p) ∧
      (∀ l ∈ sampleCart, 0 ≤ stock2 l.productId)) ∧
    (reserveAndApply lowStock sampleCart = .error .InsufficientStock ∧
      applyStock lowStock sampleCart = lowStock) :=
  ⟨(reserveAndApply_all_or_nothing sampleStock sampleCart (by decide)).1 (by decide),
   (reserveAndApply_all_or_nothing lowStock sampleCart (by decide)).2
     ⟨{ productId := "bread", quantity := 3 }, by decide, by decide⟩⟩

/- ------------------------------------------------------------------ -/
/- Concurrency model, modelled from the spec (§5)                     -/
/- ------------------------------------------------------------------ -/

/-- Execution state of two threads, A and B, each performing one
`postMovement` call against the same client key: the shared client record,
plus, for each thread, the snapshot of the shared record it read (none
until the thread performs its read). -/
structure TwoThreadExec where
  glob : Client
  snapA : Option Client
  snapB : Option Client
deriving DecidableEq, Repr

/-- One event of a thread: its first event reads the shared record into a
snapshot; its second event commits the movement computed from that
snapshot back to the shared record.  A schedule that interleaves two
threads between read and write can therefore lose an update; the per-key
strict ordering of §5 rules such schedules out. -/
def threadStep (r : MovementRequest) (glob : Client) (snap : Option Client) :
    Client × Option Client :=
  match snap with
  | none => (glob, some glob)
  | some c => (applyRequest c r, some c)

/-- Run one event of the indicated thread (true = A, false = B). -/
def execStep (rA rB : MovementRequest) (st : TwoThreadExec) (t : Bool) :
    TwoThreadExec :=
  if t then
    { st with
        glob := (threadStep rA st.glob st.snapA).1,
        snapA := (threadStep rA st.glob st.snapA).2 }
  else
    { st with
        glob := (threadStep rB st.glob st.snapB).1,
        snapB := (threadStep rB st.glob st.snapB).2 }

/-- Run a schedule (a list of thread choices) from a fresh execution state
over the shared client `c`. -/
def execSched (rA rB : MovementRequest) (c : Client) (sched : List Bool) :
    TwoThreadExec :=
  sched.foldl (execStep rA rB) { glob := c, snapA := none, snapB := none }

/-- Modelled from the spec: §5 serializes all mutating operations per
resource key, so the only schedules the engine admits for two
`postMovement` calls on the same client are the two where one call runs to
completion before the other starts. -/
def serializedSchedule (sched : List Bool) : Prop :=
  sched = [true, true, false, false] ∨ sched = [false, false, true, true]

/-- C7: under the per-key strict ordering of §5, every admitted schedule of
two concurrent `postMovement` calls on the same client leaves the shared
client exactly as some serial order of the two calls — neither update is
lost. -/
theorem concurrent_postMovement_serializable (rA rB : MovementRequest)
    (c : Client) (sched : List Bool) (h : serializedSchedule sched) :
    (execSched rA rB c sched).glob = runRequests c [rA, rB] ∨
    (execSched rA rB c sched).glob = runRequests c [rB, rA] := by
  rcases h with h | h
  · left
    rw [h]
    simp [execSched, execStep, threadStep, runRequests, List.foldl]
  · right
    rw [h]
    simp [execSched, execStep, threadStep, runRequests, List.foldl]

theorem concurrent_postMovement_serializable_witness :
    (execSched reqFiado reqAbono freshClient [true, true, false, false]).glob =
      runRequests freshClient [reqFiado, reqAbono] ∨
    (execSched reqFiado reqAbono freshClient [true, true, false, false]).glob =
      runRequests freshClient [reqAbono, reqFiado] :=
  concurrent_postMovement_serializable reqFiado reqAbono freshClient
    [true, true, false, false] (Or.inl rfl)

/- ------------------------------------------------------------------ -/
/- Report generator, from src/unnamed/part_000                        -/
/- ------------------------------------------------------------------ -/

/-- The summary figures rendered by `generateClientReport`
(src/unnamed/part_000, lines 269-301): `totalConsumos` embeds
`movements.reduce((sum, m) => sum + m.amount, 0)`, rendered in the box
labelled Total Consumos (Período); `saldoPendiente` embeds the
`client.balance` rendered in the Saldo Pendiente Total box. -/
structure ClientReportSummary where
  totalConsumos : Int
  saldoPendiente : Int
deriving DecidableEq, Repr

def clientReportSummary (client : Client) (movements : List ClientMovement) :
    ClientReportSummary :=
  { totalConsumos := movements.foldl (fun sum m => sum + m.amount) 0,
    saldoPendiente := client.balance }

theorem foldl_add_shift {α : Type} (f : α → Int) (l : List α) :
    ∀ i : Int, l.foldl (fun sum x => sum + f x) i = i + (l.map f).sum := by
  induction l with
  | nil => intro i; simp
  | cons x l ih =>
      intro i
      simp only [List.foldl_cons, List.map_cons, List.sum_cons, ih (i + f x)]
      ring

/-- C8: the Total Consumos (Período) figure of `generateClientReport` is
the plain sum of the `amount` field over the movement list, whatever each
movement type is — appending any movement, abono and pago-total included,
adds its amount with the same (positive) sign as a fiado, not as a signed
delta. -/
theorem clientReport_totalConsumos_plain_sum (client : Client)
    (movements : List ClientMovement) :
    (clientReportSummary client movements).totalConsumos =
      (movements.map (fun m => m.amount)).sum ∧
    (∀ m : ClientMovement,
      (clientReportSummary client (movements ++ [m])).totalConsumos =
        (clientReportSummary client movements).totalConsumos + m.amount) := by
  constructor
  · show movements.foldl (fun sum m => sum + m.amount) 0 = _
    rw [foldl_add_shift (fun m => m.amount) movements 0]
    ring
  · intro m
    show (movements ++ [m]).foldl (fun sum m => sum + m.amount) 0 =
      movements.foldl (fun sum m => sum + m.amount) 0 + m.amount
    rw [foldl_add_shift (fun m => m.amount) (movements ++ [m]) 0,
      foldl_add_shift (fun m => m.amount) movements 0]
    simp

/-- The headline figures of `generateSummaryReport`
(src/unnamed/part_000, lines 414-417 and 437-470): total client count,
total debt as `clients.reduce((sum, c) => sum + c.balance, 0)`, the
authorized and blocked counts as the lengths of the `c.authorized` and
`!c.authorized` filters, and the filter of clients with `balance > 0`. -/
structure SummaryStats where
  totalClients : Nat
  totalDebt : Int
  authorizedCount : Nat
  blockedCount : Nat
deriving DecidableEq, Repr

def summaryStats (clients : List Client) : SummaryStats :=
  { totalClients := clients.length,
    totalDebt := clients.foldl (fun sum c => sum + c.balance) 0,
    authorizedCount := (clients.filter (fun c => c.authorized)).length,
    blockedCount := (clients.filter (fun c => !c.authorized)).length }

/-- C9: in `generateSummaryReport` the rendered total debt is the sum of
`balance` over all clients, and the rendered authorized and blocked counts
partition the client list: they add up to its length. -/
theorem summaryReport_stats_correct (clients : List Client) :
    (summaryStats clients).totalDebt = (clients.map (fun c => c.balance)).sum ∧
    (summaryStats clients).authorizedCount + (summaryStats clients).blockedCount =
      clients.length := by
  constructor
  · show clients.foldl (fun sum c => sum + c.balance) 0 = _
    rw [foldl_add_shift (fun c => c.balance) clients 0]
    ring
  · show (clients.filter (fun c => c.authorized)).length +
      (clients.filter (fun c => !c.authorized)).length = clients.length
    induction clients with
    | nil => rfl
    | cons c cs ih =>
        rcases hc : c.authorized with _ | _ <;>
          simp [List.filter_cons, hc, ← ih] <;> omega

/-- Clients with a pending balance, `clients.filter(c => c.balance > 0)`
(src/unnamed/part_000, line 417). -/
def clientsWithDebt (clients : List Client) : List Client :=
  clients.filter (fun c => decide (0 < c.balance))

/-- The rows of the Clientes con Saldo Pendiente table
(src/unnamed/part_000, line 488): the debt list is copied and sorted by
balance descending — `[...clientsWithDebt].sort((a, b) => b.balance -
a.balance)` — embedded as a stable merge sort under the comparator
`b.balance ≤ a.balance`. -/
def sortedClientsWithDebt (clients : List Client) : List Client :=
  (clientsWithDebt clients).mergeSort (fun a b => decide (b.balance ≤ a.balance))

/-- The two client tables of `generateSummaryReport`: the debt table
(lines 486-496) built from the sorted copy, and the Listado Completo table
(lines 541-547) built from the original `clients` list, which the sort on
the copy has left untouched. -/
structure SummaryReportTables where
  debtTable : List Client
  allClients : List Client
deriving DecidableEq, Repr

def summaryReportTables (clients : List Client) : SummaryReportTables :=
  { debtTable := sortedClientsWithDebt clients,
    allClients := clients }

/-- C10: the Clientes con Saldo Pendiente table of `generateSummaryReport`
holds exactly the clients whose balance is strictly positive, in an order
where each balance is at least the next (descending); and the table is a
sorted copy: the Listado Completo table still receives the original
client list, element for element in its original order. -/
theorem summaryReport_debt_table (clients : List Client) :
    (∀ c, c ∈ (summaryReportTables clients).debtTable ↔
      c ∈ clients ∧ 0 < c.balance) ∧
    (summaryReportTables clients).debtTable.Pairwise
      (fun a b => b.balance ≤ a.balance) ∧
    ((summaryReportTables clients).debtTable).Perm (clientsWithDebt clients) ∧
    (summaryReportTables clients).allClients = clients := by
  have hperm : ((summaryReportTables clients).debtTable).Perm (clientsWithDebt clients) :=
    List.mergeSort_perm (clientsWithDebt clients) (fun a b => decide (b.balance ≤ a.balance))
  refine ⟨?_, ?_, hperm, rfl⟩
  · intro c
    rw [hperm.mem_iff]
    unfold clientsWithDebt
    simp
  · have hsorted := @List.sorted_mergeSort Client
      (fun a b : Client => decide (b.balance ≤ a.balance))
      (fun a b c2 hab hbc => by
        simp only [decide_eq_true_eq] at hab hbc ⊢
        omega)
      (fun a b => by
        simp only [Bool.or_eq_true, decide_eq_true_eq]
        omega)
      (clientsWithDebt clients)
    refine List.Pairwise.imp ?_ hsorted
    intro a b hab
    simpa using hab

/-- Three concrete clients used to exercise the summary report theorem. -/
def reportClients : List Client :=
  [{ freshClient with id := "a", balance := 100 },
   { freshClient with id := "b", balance := 0 },
   { freshClient with id := "c", balance := 250, authorized := false }]

theorem summaryReport_debt_table_witness :
    (∀ c, c ∈ (summaryReportTables reportClients).debtTable ↔
      c ∈ reportClients ∧ 0 < c.balance) ∧
    (summaryReportTables reportClients).debtTable.Pairwise
      (fun a b => b.balance ≤ a.balance) ∧
    ((summaryReportTables reportClients).debtTable).Perm (clientsWithDebt reportClients) ∧
    (summaryReportTables reportClients).allClients = reportClients :=
  summaryReport_debt_table reportClients
